import Mathlib

/-!
Verification of the redis policy manager of `ory/ladon-community`
(`src/manager/redis/manager_redis.go`).

The manager keeps, for a healthy backing redis instance:
  * a primary record per policy, under the key `<ns>_policy_<id>`;
  * one hash per resource literal (`<ns>_resource_<lit>`) and one per
    subject literal (`<ns>_subject_<lit>`), each mapping policy ids to
    the serialized policy payload.

We embed the backing store as explicit state: the primary keyspace and
the two index families are association structures of fields to payloads.
Redis guarantees per-command atomicity, so every `m.db.X(...)` call in
the Go code is one atomic step on this state; the manager methods are
the sequential composition of those steps.
-/

set_option autoImplicit false

namespace LadonRedis

/-- A policy record, after `ladon.DefaultPolicy`: identifier, description,
subject patterns, effect, resource patterns, action patterns, and an
opaque condition set that the store passes through unmodified. -/
structure Policy where
  id : String
  description : String := ""
  subjects : List String := []
  effect : String := ""
  resources : List String := []
  actions : List String := []
  conditions : List (String × String) := []
  deriving DecidableEq, Repr

/-- Modelled from the spec: the serialized form of a record. The record
codec (spec §2 "Record Codec" — ladon's JSON marshalling of
`DefaultPolicy`, which lives in the `ory/ladon` dependency, not under
the sources being verified) produces a self-describing payload from a
policy; a payload that is present in the store but malformed fails to
decode, the spec's distinct `Corrupt` condition. -/
inductive Payload where
  | good (p : Policy)
  | corrupt
  deriving DecidableEq, Repr

/-- Modelled from the spec: serialization (`json.Marshal`). -/
def encodePolicy (p : Policy) : Payload := Payload.good p

/-- Error taxonomy of the manager: `ErrNotFound` (from ladon),
`ErrPolicyExists` and `ErrBadConversion` (declared at the top of
`manager_redis.go`). -/
inductive Err where
  | notFound
  | policyExists
  | badConversion
  deriving DecidableEq, Repr

/-- Modelled from the spec: deserialization (`json.Unmarshal` into
`DefaultPolicy`), the inverse of `encodePolicy` on well-formed payloads,
failing on a corrupt payload. -/
def decodePolicy : Payload → Except Err Policy
  | Payload.good p => Except.ok p
  | Payload.corrupt => Except.error Err.badConversion

/-- A redis hash (also used for the plain primary keyspace): an
association of string fields to payloads. Field keys are unique in
redis; we keep them unique by construction. -/
abbrev Hash := List (String × Payload)

/-- Lookup of a field in a hash (redis GET / HGET). -/
def alookup (k : String) : Hash → Option Payload
  | [] => none
  | kv :: t => if kv.1 = k then some kv.2 else alookup k t

/-- Write of a field (redis SET on the primary keyspace, HMSET of a
single field on an index hash): overwrite the field if it is present,
otherwise append it. -/
def hset (field : String) (pay : Payload) : Hash → Hash
  | [] => [(field, pay)]
  | kv :: t => if kv.1 = field then (field, pay) :: t else kv :: hset field pay t

/-- Removal of a field (redis DEL on the primary keyspace, HDEL on an
index hash). -/
def hdel (field : String) (h : Hash) : Hash :=
  h.filter (fun kv => kv.1 != field)

/-- The backing-store state as the manager uses it: the primary records
(keyed by policy id; the constant key fragments and the namespace are
common to every access and therefore elided), the per-resource-literal
index hashes and the per-subject-literal index hashes. -/
structure Store where
  primary : Hash
  resourceIdx : String → Hash
  subjectIdx : String → Hash

/-- The state of a fresh instance: no policies, every index hash empty. -/
def Store.empty : Store := ⟨[], fun _ => [], fun _ => []⟩

/-- The per-literal HMSET loop of `Create` / `Update` (lines 70-89 and
334-353): for each literal in `lits`, set field `field` of that
literal's hash to `pay`. -/
def updIdx (idx : String → Hash) (lits : List String) (field : String) (pay : Payload) :
    String → Hash :=
  lits.foldl (fun f v => fun l => if l = v then hset field pay (f l) else f l) idx

/-- The per-literal HDEL loop of `Delete` (lines 178-193). -/
def delIdx (idx : String → Hash) (lits : List String) (field : String) : String → Hash :=
  lits.foldl (fun f v => fun l => if l = v then hdel field (f l) else f l) idx

/-- The existence check of `Create` (line 53: `m.db.Get(key).Err()` is
nil exactly when the key is present; the call may proceed when it is
absent). This is its own atomic backing-store operation, separate from
the write that follows. -/
def createCheck (st : Store) (p : Policy) : Bool :=
  (alookup p.id st.primary).isNone

/-- The write phase shared by `Create` (lines 57-90) and `Update`
(lines 321-355): marshal the policy, SET the primary key, then HMSET
the payload under the policy id in the hash of every declared resource
literal and every declared subject literal. -/
def writePhase (st : Store) (p : Policy) : Store :=
  { primary := hset p.id (encodePolicy p) st.primary
    resourceIdx := updIdx st.resourceIdx p.resources p.id (encodePolicy p)
    subjectIdx := updIdx st.subjectIdx p.subjects p.id (encodePolicy p) }

/-- `Create` (lines 50-91): return `ErrPolicyExists` when the primary
key is already present, otherwise run the write phase. -/
def Create (st : Store) (p : Policy) : Except Err Store :=
  if createCheck st p then Except.ok (writePhase st p) else Except.error Err.policyExists

/-- The store after a `Create` call: unchanged when the call failed (the
failing branch returns before any write). -/
def runCreate (st : Store) (p : Policy) : Store :=
  match Create st p with
  | Except.ok st' => st'
  | Except.error _ => st

/-- `Update` (lines 314-356): return `ErrNotFound` when the primary key
is absent, otherwise run the same write phase as `Create` — the new
payload is written under the primary key and under every literal of the
new record; nothing is read from or removed under the old record's
literals. -/
def Update (st : Store) (p : Policy) : Except Err Store :=
  if (alookup p.id st.primary).isNone then Except.error Err.notFound
  else Except.ok (writePhase st p)

/-- The store after an `Update` call (unchanged on failure). -/
def runUpdate (st : Store) (p : Policy) : Store :=
  match Update st p with
  | Except.ok st' => st'
  | Except.error _ => st

/-- What the backing GET of the primary key can come back with: the
payload, the nil reply for an absent key, or a transport-level failure
(`Unavailable` in the spec's taxonomy). In go-redis all three surface
through the same `cmd.Err()` / `cmd.Bytes()` interface. -/
inductive Reply where
  | found (b : Payload)
  | nilReply
  | unavailable
  deriving DecidableEq, Repr

/-- The reply a healthy backing store gives for the primary key. -/
def dbGet (st : Store) (id : String) : Reply :=
  match alookup id st.primary with
  | some b => Reply.found b
  | none => Reply.nilReply

/-- Body of `Get` as a function of the backing call's reply
(lines 142-153): `if err := cmd.Err(); err != nil { return nil,
ErrNotFound }` maps every failing reply — the nil reply for an absent
key and a transport-level failure alike — to `ErrNotFound`; a payload
that is present but fails to decode is reported as `ErrBadConversion`. -/
def getCore : Reply → Except Err Policy
  | Reply.found b =>
    match decodePolicy b with
    | Except.ok p => Except.ok p
    | Except.error _ => Except.error Err.badConversion
  | Reply.nilReply => Except.error Err.notFound
  | Reply.unavailable => Except.error Err.notFound

/-- `Get` (lines 135-154) against a healthy backing store. -/
def Get (st : Store) (id : String) : Except Err Policy :=
  getCore (dbGet st id)

/-- `Delete` (lines 157-196): `ErrNotFound` when the primary key is
absent; otherwise decode the stored record to discover its literals,
DEL the primary key, then HDEL the decoded policy's id from the hash of
every resource and subject literal the decoded record declares. -/
def Delete (st : Store) (id : String) : Except Err Store :=
  match alookup id st.primary with
  | none => Except.error Err.notFound
  | some b =>
    match decodePolicy b with
    | Except.error _ => Except.error Err.badConversion
    | Except.ok policy =>
      Except.ok
        { primary := hdel id st.primary
          resourceIdx := delIdx st.resourceIdx policy.resources policy.id
          subjectIdx := delIdx st.subjectIdx policy.subjects policy.id }

/-- The decode loop shared by the query methods: unmarshal each payload
in order, failing the whole call with `ErrBadConversion` on the first
payload that does not decode. -/
def decodeValues : List Payload → Except Err (List Policy)
  | [] => Except.ok []
  | b :: t =>
    match decodePolicy b with
    | Except.error _ => Except.error Err.badConversion
    | Except.ok p =>
      match decodeValues t with
      | Except.error e => Except.error e
      | Except.ok ps => Except.ok (p :: ps)

/-- `FindPoliciesForResource` (lines 201-227): HGETALL on the resource
literal's hash, decode every payload into the local `policies` slice —
and then line 226 executes `return nil, nil`, discarding the
accumulated slice. `none` models the nil `Policies` slice that the
caller receives; `some l` would model returning the slice `l`. -/
def FindPoliciesForResource (st : Store) (resource : String) :
    Except Err (Option (List Policy)) :=
  match decodeValues ((st.resourceIdx resource).map Prod.snd) with
  | Except.error e => Except.error e
  | Except.ok _ => Except.ok none

/-- `FindPoliciesForSubject` (lines 232-258): HGETALL on the subject
literal's hash, decode every payload, and return the accumulated
slice. -/
def FindPoliciesForSubject (st : Store) (subject : String) :
    Except Err (Option (List Policy)) :=
  match decodeValues ((st.subjectIdx subject).map Prod.snd) with
  | Except.error e => Except.error e
  | Except.ok l => Except.ok (some l)

/-- `FindRequestCandidates` (lines 263-312): HGETALL on the request
resource's hash and on the request subject's hash, decode the payloads
of the resource entry and then those of the subject entry, and return
their concatenation. The primary keyspace is never consulted and no
deduplication is performed. -/
def FindRequestCandidates (st : Store) (subject resource : String) :
    Except Err (List Policy) :=
  match decodeValues ((st.resourceIdx resource).map Prod.snd) with
  | Except.error e => Except.error e
  | Except.ok rps =>
    match decodeValues ((st.subjectIdx subject).map Prod.snd) with
    | Except.error e => Except.error e
    | Except.ok sps => Except.ok (rps ++ sps)

/-- Possible outcomes of `GetAll`, whose slicing expression can panic at
run time: a result, a returned error, or a Go panic. -/
inductive Outcome (α : Type) where
  | ok (a : α)
  | error (e : Err)
  | goPanic
  deriving DecidableEq, Repr

/-- The Go slice expression `xs[lo:hi]`: the elements at positions
`lo ≤ i < hi`, panicking unless `0 ≤ lo ≤ hi ≤ len(xs)`. -/
def goSlice (xs : List Policy) (lo hi : Int) : Outcome (List Policy) :=
  if 0 ≤ lo ∧ lo ≤ hi ∧ hi ≤ (xs.length : Int) then
    Outcome.ok ((xs.drop lo.toNat).take (hi - lo).toNat)
  else Outcome.goPanic

/-- The value Go `int64` addition produces: the mathematical result
wrapped, two's complement, into [−2^63, 2^63). The numerals are 2^63
and 2^64. -/
def wrap64 (x : Int) : Int :=
  (x + 9223372036854775808) % 18446744073709551616 - 9223372036854775808

/-- `GetAll` (lines 94-132): KEYS over the primary keyspace, MGET of
every key, decode each value; then (lines 126-129) when
`offset+limit > int64(len(policies))` reassign `limit = len(policies)`
and `offset = 0`; finally (line 131) return `policies[offset:limit]`.
`limit` and `offset` are Go `int64` parameters, so the guard's sum is
the wrapped machine sum `wrap64 (offset + limit)`; the collection
length converts without wrapping, and the slice bounds are the
parameters themselves, used without further arithmetic. -/
def GetAll (st : Store) (limit offset : Int) : Outcome (List Policy) :=
  match decodeValues (st.primary.map Prod.snd) with
  | Except.error e => Outcome.error e
  | Except.ok policies =>
    if wrap64 (offset + limit) > (policies.length : Int) then
      goSlice policies 0 (policies.length : Int)
    else
      goSlice policies offset limit

/-- One interleaved schedule of two `Create` calls, split at the only
interleaving point the code has between its existence check and its
first write: the GET at line 53 and the SET at line 63 are separate
backing-store commands. Schedule: caller one runs its check, caller two
runs its check, caller one runs its write phase, caller two runs its
write phase. Each caller's returned error is decided by its own check,
exactly as in `Create`. -/
def interleavedCreates (p q : Policy) : Except Err Unit × Except Err Unit × Store :=
  let s0 := Store.empty
  let cp := createCheck s0 p
  let cq := createCheck s0 q
  let s1 := if cp then writePhase s0 p else s0
  let s2 := if cq then writePhase s1 q else s1
  (if cp then Except.ok () else Except.error Err.policyExists,
   if cq then Except.ok () else Except.error Err.policyExists,
   s2)

/-- Sequential creation of a list of policies from a starting state; a
failing `Create` leaves the state unchanged. -/
def createAll (st : Store) (ps : List Policy) : Store :=
  ps.foldl runCreate st

/-- Every payload of a hash is the encoding of some policy. -/
def goodHash (h : Hash) : Prop :=
  ∀ kv ∈ h, ∃ q, kv.2 = Payload.good q

/-- Every hash of an index family is well-formed. -/
def goodIdx (idx : String → Hash) : Prop :=
  ∀ lit, goodHash (idx lit)

/-! ### Lemmas about the hash primitives -/

theorem alookup_hset (k f : String) (pay : Payload) (h : Hash) :
    alookup k (hset f pay h) = if f = k then some pay else alookup k h := by
  induction h with
  | nil => by_cases hfk : f = k <;> simp [hset, alookup, hfk]
  | cons kv t ih =>
    by_cases h1 : kv.1 = f
    · by_cases h2 : f = k
      · simp [hset, alookup, h1, h2]
      · have hk : kv.1 ≠ k := fun e => h2 (h1.symm.trans e)
        simp [hset, alookup, h1, h2, hk]
    · by_cases h2 : f = k
      · subst h2
        simp [hset, alookup, h1, ih]
      · simp [hset, alookup, h1, h2, ih]

theorem mem_hset_self (f : String) (pay : Payload) (h : Hash) :
    (f, pay) ∈ hset f pay h := by
  induction h with
  | nil => simp [hset]
  | cons kv t ih =>
    by_cases h1 : kv.1 = f <;> simp [hset, h1, ih]

theorem mem_hset_of_ne {kv : String × Payload} {h : Hash} (f : String) (pay : Payload)
    (hm : kv ∈ h) (hne : kv.1 ≠ f) : kv ∈ hset f pay h := by
  induction h with
  | nil => cases hm
  | cons kv' t ih =>
    rcases List.mem_cons.mp hm with rfl | hmt
    · simp [hset, hne]
    · by_cases h1 : kv'.1 = f <;> simp [hset, h1]
      · exact Or.inr hmt
      · exact Or.inr (ih hmt)

theorem mem_of_mem_hset {kv : String × Payload} {h : Hash} {f : String} {pay : Payload}
    (hm : kv ∈ hset f pay h) : kv = (f, pay) ∨ kv ∈ h := by
  induction h with
  | nil => simpa [hset] using hm
  | cons kv' t ih =>
    by_cases h1 : kv'.1 = f
    · rcases List.mem_cons.mp (by simpa [hset, h1] using hm) with rfl | hmt
      · exact Or.inl rfl
      · exact Or.inr (List.mem_cons_of_mem _ hmt)
    · rcases List.mem_cons.mp (by simpa [hset, h1] using hm) with rfl | hmt
      · exact Or.inr (List.mem_cons_self _ _)
      · rcases ih hmt with h2 | h2
        · exact Or.inl h2
        · exact Or.inr (List.mem_cons_of_mem _ h2)

theorem alookup_hdel_self (f : String) (h : Hash) : alookup f (hdel f h) = none := by
  induction h with
  | nil => rfl
  | cons kv t ih =>
    by_cases h1 : kv.1 = f
    · simpa [hdel, List.filter_cons, bne_iff_ne, h1] using ih
    · simpa [hdel, List.filter_cons, bne_iff_ne, h1, alookup] using ih

/-! ### Lemmas about the per-literal index loops -/

theorem updIdx_cons (idx : String → Hash) (v : String) (t : List String)
    (f : String) (pay : Payload) :
    updIdx idx (v :: t) f pay
      = updIdx (fun l => if l = v then hset f pay (idx l) else idx l) t f pay := rfl

theorem updIdx_apply_notMem (idx : String → Hash) (lits : List String) (f : String)
    (pay : Payload) (lit : String) (h : lit ∉ lits) :
    updIdx idx lits f pay lit = idx lit := by
  induction lits generalizing idx with
  | nil => rfl
  | cons v t ih =>
    have hne : lit ≠ v := fun e => h (e ▸ List.mem_cons_self v t)
    have ht : lit ∉ t := fun e => h (List.mem_cons_of_mem v e)
    rw [updIdx_cons, ih _ ht]
    simp [hne]

theorem mem_updIdx_self (idx : String → Hash) (lits : List String) (f : String)
    (pay : Payload) (s : String) (h : (f, pay) ∈ idx s ∨ s ∈ lits) :
    (f, pay) ∈ updIdx idx lits f pay s := by
  induction lits generalizing idx with
  | nil =>
    rcases h with h | h
    · exact h
    · cases h
  | cons v t ih =>
    rw [updIdx_cons]
    apply ih
    rcases h with h | h
    · left
      by_cases hsv : s = v
      · simpa [hsv] using mem_hset_self f pay (idx v)
      · simpa [hsv] using h
    · rcases List.mem_cons.mp h with rfl | hmt
      · left; simpa using mem_hset_self f pay (idx s)
      · right; exact hmt

theorem mem_updIdx_of_ne {kv : String × Payload} (idx : String → Hash)
    (lits : List String) (f : String) (pay : Payload) (lit : String)
    (hm : kv ∈ idx lit) (hne : kv.1 ≠ f) : kv ∈ updIdx idx lits f pay lit := by
  induction lits generalizing idx with
  | nil => exact hm
  | cons v t ih =>
    rw [updIdx_cons]
    apply ih
    by_cases hlv : lit = v
    · simpa [hlv] using mem_hset_of_ne f pay hm hne
    · simpa [hlv] using hm

theorem mem_of_mem_updIdx {kv : String × Payload} (idx : String → Hash)
    (lits : List String) (f : String) (pay : Payload) (lit : String)
    (hm : kv ∈ updIdx idx lits f pay lit) : kv = (f, pay) ∨ kv ∈ idx lit := by
  induction lits generalizing idx with
  | nil => exact Or.inr hm
  | cons v t ih =>
    rw [updIdx_cons] at hm
    rcases ih _ hm with h | h
    · exact Or.inl h
    · by_cases hlv : lit = v
      · exact mem_of_mem_hset (by simpa [hlv] using h)
      · exact Or.inr (by simpa [hlv] using h)

theorem delIdx_cons (idx : String → Hash) (v : String) (t : List String) (f : String) :
    delIdx idx (v :: t) f
      = delIdx (fun l => if l = v then hdel f (idx l) else idx l) t f := rfl

theorem alookup_delIdx (idx : String → Hash) (lits : List String) (f : String)
    (s : String) (h : alookup f (idx s) = none ∨ s ∈ lits) :
    alookup f (delIdx idx lits f s) = none := by
  induction lits generalizing idx with
  | nil =>
    rcases h with h | h
    · exact h
    · cases h
  | cons v t ih =>
    rw [delIdx_cons]
    apply ih
    rcases h with h | h
    · left
      by_cases hsv : s = v
      · simpa [hsv] using alookup_hdel_self f (idx s)
      · simpa [hsv] using h
    · rcases List.mem_cons.mp h with rfl | hmt
      · left; simpa using alookup_hdel_self f (idx s)
      · right; exact hmt

/-! ### Lemmas about the decode loop -/

theorem decodeValues_isOk (pays : List Payload)
    (h : ∀ b ∈ pays, ∃ q, b = Payload.good q) :
    ∃ l, decodeValues pays = Except.ok l := by
  induction pays with
  | nil => exact ⟨[], rfl⟩
  | cons b t ih =>
    obtain ⟨q, rfl⟩ := h b (List.mem_cons_self b t)
    obtain ⟨l, hl⟩ := ih fun b' hb' => h b' (List.mem_cons_of_mem _ hb')
    exact ⟨q :: l, by simp [decodeValues, decodePolicy, hl]⟩

theorem mem_decodeValues {pays : List Payload} {l : List Policy} {p : Policy}
    (hok : decodeValues pays = Except.ok l) (hm : Payload.good p ∈ pays) : p ∈ l := by
  induction pays generalizing l with
  | nil => cases hm
  | cons b t ih =>
    rcases List.mem_cons.mp hm with rfl | hmt
    · rw [decodeValues, decodePolicy] at hok
      rcases ht : decodeValues t with e | l'
      · rw [ht] at hok; cases hok
      · rw [ht] at hok
        cases hok
        exact List.mem_cons_self _ _
    · rcases hb : decodePolicy b with e | pb
      · rw [decodeValues, hb] at hok; cases hok
      · rw [decodeValues, hb] at hok
        rcases ht : decodeValues t with e | l'
        · rw [ht] at hok; cases hok
        · rw [ht] at hok
          cases hok
          exact List.mem_cons_of_mem _ (ih ht hmt)

theorem goodHash_map_snd {h : Hash} (hg : goodHash h) :
    ∀ b ∈ h.map Prod.snd, ∃ q, b = Payload.good q := by
  intro b hb
  obtain ⟨kv, hkv, rfl⟩ := List.mem_map.mp hb
  exact hg kv hkv

/-! ### Lemmas about `Create` sequences -/

theorem runCreate_of_absent (st : Store) (p : Policy)
    (h : alookup p.id st.primary = none) : runCreate st p = writePhase st p := by
  simp [runCreate, Create, createCheck, h]

theorem alookup_primary_runCreate_ne (st : Store) (p : Policy) (k : String)
    (h : p.id ≠ k) :
    alookup k (runCreate st p).primary = alookup k st.primary := by
  rcases hc : createCheck st p with _ | _
  · simp [runCreate, Create, hc]
  · simp [runCreate, Create, hc, writePhase, alookup_hset, h]

theorem mem_subjectIdx_runCreate {kv : String × Payload} (st : Store) (q : Policy)
    (lit : String) (hm : kv ∈ st.subjectIdx lit) (hne : kv.1 ≠ q.id) :
    kv ∈ (runCreate st q).subjectIdx lit := by
  rcases hc : createCheck st q with _ | _
  · simpa [runCreate, Create, hc] using hm
  · simp only [runCreate, Create, hc, if_true, writePhase]
    exact mem_updIdx_of_ne _ _ _ _ _ hm hne

theorem mem_resourceIdx_runCreate {kv : String × Payload} (st : Store) (q : Policy)
    (lit : String) (hm : kv ∈ st.resourceIdx lit) (hne : kv.1 ≠ q.id) :
    kv ∈ (runCreate st q).resourceIdx lit := by
  rcases hc : createCheck st q with _ | _
  · simpa [runCreate, Create, hc] using hm
  · simp only [runCreate, Create, hc, if_true, writePhase]
    exact mem_updIdx_of_ne _ _ _ _ _ hm hne

theorem createAll_cons (st : Store) (q : Policy) (t : List Policy) :
    createAll st (q :: t) = createAll (runCreate st q) t := rfl

theorem mem_subjectIdx_createAll_pres {kv : String × Payload} (ps : List Policy)
    (st : Store) (lit : String) (hm : kv ∈ st.subjectIdx lit)
    (hne : ∀ q ∈ ps, kv.1 ≠ q.id) : kv ∈ (createAll st ps).subjectIdx lit := by
  induction ps generalizing st with
  | nil => exact hm
  | cons q t ih =>
    rw [createAll_cons]
    exact ih _ (mem_subjectIdx_runCreate st q lit hm (hne q (List.mem_cons_self q t)))
      fun q' hq' => hne q' (List.mem_cons_of_mem q hq')

theorem mem_resourceIdx_createAll_pres {kv : String × Payload} (ps : List Policy)
    (st : Store) (lit : String) (hm : kv ∈ st.resourceIdx lit)
    (hne : ∀ q ∈ ps, kv.1 ≠ q.id) : kv ∈ (createAll st ps).resourceIdx lit := by
  induction ps generalizing st with
  | nil => exact hm
  | cons q t ih =>
    rw [createAll_cons]
    exact ih _ (mem_resourceIdx_runCreate st q lit hm (hne q (List.mem_cons_self q t)))
      fun q' hq' => hne q' (List.mem_cons_of_mem q hq')

theorem mem_subjectIdx_createAll (ps : List Policy) (st : Store) (p : Policy)
    (s : String) (hp : p ∈ ps) (hd : ps.Pairwise fun a b => a.id ≠ b.id)
    (habs : ∀ q ∈ ps, alookup q.id st.primary = none) (hs : s ∈ p.subjects) :
    (p.id, Payload.good p) ∈ (createAll st ps).subjectIdx s := by
  induction ps generalizing st with
  | nil => cases hp
  | cons q t ih =>
    have hhead : ∀ b ∈ t, q.id ≠ b.id := (List.pairwise_cons.mp hd).1
    rcases List.mem_cons.mp hp with rfl | hpt
    · rw [createAll_cons, runCreate_of_absent st p (habs p (List.mem_cons_self p t))]
      have h2 : (p.id, Payload.good p) ∈ (writePhase st p).subjectIdx s :=
        mem_updIdx_self _ _ _ _ _ (Or.inr hs)
      exact mem_subjectIdx_createAll_pres t _ s h2 fun q' hq' => (hhead q' hq').symm ∘ Eq.symm
    · rw [createAll_cons]
      apply ih _ hpt (List.pairwise_cons.mp hd).2
      intro q' hq'
      rw [alookup_primary_runCreate_ne st q q'.id (hhead q' hq')]
      exact habs q' (List.mem_cons_of_mem q hq')

theorem mem_resourceIdx_createAll (ps : List Policy) (st : Store) (p : Policy)
    (r : String) (hp : p ∈ ps) (hd : ps.Pairwise fun a b => a.id ≠ b.id)
    (habs : ∀ q ∈ ps, alookup q.id st.primary = none) (hr : r ∈ p.resources) :
    (p.id, Payload.good p) ∈ (createAll st ps).resourceIdx r := by
  induction ps generalizing st with
  | nil => cases hp
  | cons q t ih =>
    have hhead : ∀ b ∈ t, q.id ≠ b.id := (List.pairwise_cons.mp hd).1
    rcases List.mem_cons.mp hp with rfl | hpt
    · rw [createAll_cons, runCreate_of_absent st p (habs p (List.mem_cons_self p t))]
      have h2 : (p.id, Payload.good p) ∈ (writePhase st p).resourceIdx r :=
        mem_updIdx_self _ _ _ _ _ (Or.inr hr)
      exact mem_resourceIdx_createAll_pres t _ r h2 fun q' hq' => (hhead q' hq').symm ∘ Eq.symm
    · rw [createAll_cons]
      apply ih _ hpt (List.pairwise_cons.mp hd).2
      intro q' hq'
      rw [alookup_primary_runCreate_ne st q q'.id (hhead q' hq')]
      exact habs q' (List.mem_cons_of_mem q hq')

theorem goodIdx_updIdx {idx : String → Hash} (lits : List String) (f : String)
    (p : Policy) (hg : goodIdx idx) : goodIdx (updIdx idx lits f (Payload.good p)) := by
  intro lit kv hm
  rcases mem_of_mem_updIdx _ _ _ _ _ hm with h | h
  · exact ⟨p, by rw [h]⟩
  · exact hg lit kv h

theorem goodIdx_subject_runCreate (st : Store) (q : Policy)
    (hg : goodIdx st.subjectIdx) : goodIdx (runCreate st q).subjectIdx := by
  rcases hc : createCheck st q with _ | _
  · simpa [runCreate, Create, hc] using hg
  · simp only [runCreate, Create, hc, if_true, writePhase]
    exact goodIdx_updIdx _ _ _ hg

theorem goodIdx_resource_runCreate (st : Store) (q : Policy)
    (hg : goodIdx st.resourceIdx) : goodIdx (runCreate st q).resourceIdx := by
  rcases hc : createCheck st q with _ | _
  · simpa [runCreate, Create, hc] using hg
  · simp only [runCreate, Create, hc, if_true, writePhase]
    exact goodIdx_updIdx _ _ _ hg

theorem goodIdx_subject_createAll (ps : List Policy) (st : Store)
    (hg : goodIdx st.subjectIdx) : goodIdx (createAll st ps).subjectIdx := by
  induction ps generalizing st with
  | nil => exact hg
  | cons q t ih => exact ih _ (goodIdx_subject_runCreate st q hg)

theorem goodIdx_resource_createAll (ps : List Policy) (st : Store)
    (hg : goodIdx st.resourceIdx) : goodIdx (createAll st ps).resourceIdx := by
  induction ps generalizing st with
  | nil => exact hg
  | cons q t ih => exact ih _ (goodIdx_resource_runCreate st q hg)

theorem goodIdx_empty : goodIdx (fun _ => []) :=
  fun _ kv h => absurd h (List.not_mem_nil kv)

/-! ### Lemmas about wrapped machine arithmetic -/

theorem wrap64_eq_self {x : Int} (hlo : -9223372036854775808 ≤ x)
    (hhi : x < 9223372036854775808) : wrap64 x = x := by
  unfold wrap64
  omega

theorem wrap64_le_of_nonneg {x n : Int} (h0 : 0 ≤ x) (hn : x ≤ n) : wrap64 x ≤ n := by
  unfold wrap64
  omega

/-! ### Concrete inputs used to exercise the claims -/

def pC1 : Policy := { id := "pol1", subjects := ["ex1", "ex2"], resources := ["exr1", "exr2"] }

def pC2old : Policy := { id := "pol1", subjects := ["1", "2"] }

def pC2new : Policy := { id := "pol1", subjects := ["2", "3", "4"] }

def pC3 : Policy := { id := "pol1", subjects := ["s"], resources := ["r"] }

def pC4a : Policy := { id := "race", description := "first" }

def pC4b : Policy := { id := "race", description := "second" }

/-! ### Claims -/

/-- Claim C1 (code bug): against the store produced by creating a policy
whose resources include "exr1", the resource index entry for "exr1"
holds the policy — yet `FindPoliciesForResource "exr1"` returns the nil
slice (`none`) with a nil error, because line 226 discards the
accumulated result and executes `return nil, nil`. This contradicts the
function's own documentation ("returns ... a set of policies that apply
to the resource, or a superset of it") and the repository's own test
`TestFindPoliciesForResource`, which fails when the result is empty. -/
theorem findPoliciesForResource_returns_nil :
    (pC1.id, Payload.good pC1) ∈ (runCreate Store.empty pC1).resourceIdx "exr1" ∧
    FindPoliciesForResource (runCreate Store.empty pC1) "exr1" = Except.ok none := by
  exact ⟨by decide, rfl⟩

/-- Claim C2 counterexample: create a policy with subjects {"1","2"} and
update it to subjects {"2","3","4"}; the update succeeds, yet
`FindPoliciesForSubject "1"` still returns the policy (under its old
payload), because `Update` never removes the policy id from the index
entries of dropped literals. -/
theorem update_leaves_stale_subject_entry :
    (Update (runCreate Store.empty pC2old) pC2new).isOk = true ∧
    FindPoliciesForSubject (runUpdate (runCreate Store.empty pC2old) pC2new) "1"
      = Except.ok (some [pC2old]) :=
  ⟨rfl, rfl⟩

/-- Claim C2 (amended): a successful `Update` replaces the primary
record and writes the new payload under every subject and resource
literal of the new value; it removes nothing, so the index entries of
literals dropped by the update are left exactly as they were — a stale
superset entry, tolerated by the resolver's superset contract — and in
the spec's scenario `FindPoliciesForSubject "4"` gains the policy while
`FindPoliciesForSubject "1"` keeps its old record. -/
theorem update_adds_new_literals_never_removes (st : Store) (p : Policy)
    (h : (alookup p.id st.primary).isSome = true) :
    ∃ st', Update st p = Except.ok st' ∧
      alookup p.id st'.primary = some (Payload.good p) ∧
      (∀ s ∈ p.subjects, (p.id, Payload.good p) ∈ st'.subjectIdx s) ∧
      (∀ r ∈ p.resources, (p.id, Payload.good p) ∈ st'.resourceIdx r) ∧
      (∀ lit, lit ∉ p.subjects → st'.subjectIdx lit = st.subjectIdx lit) ∧
      (∀ lit, lit ∉ p.resources → st'.resourceIdx lit = st.resourceIdx lit) := by
  have hne : (alookup p.id st.primary).isNone = false := by
    cases hl : alookup p.id st.primary
    · rw [hl] at h; simp at h
    · simp
  refine ⟨writePhase st p, by simp [Update, hne], ?_, ?_, ?_, ?_, ?_⟩
  · simp [writePhase, alookup_hset, encodePolicy]
  · intro s hs; exact mem_updIdx_self _ _ _ _ _ (Or.inr hs)
  · intro r hr; exact mem_updIdx_self _ _ _ _ _ (Or.inr hr)
  · intro lit hl; exact updIdx_apply_notMem _ _ _ _ _ hl
  · intro lit hl; exact updIdx_apply_notMem _ _ _ _ _ hl

/-- Witness for the amended C2, at the spec's own scenario
({"1","2"} changed to {"2","3","4"}). -/
theorem update_adds_new_literals_never_removes_witness :
    ∃ st', Update (runCreate Store.empty pC2old) pC2new = Except.ok st' ∧
      alookup pC2new.id st'.primary = some (Payload.good pC2new) ∧
      (∀ s ∈ pC2new.subjects, (pC2new.id, Payload.good pC2new) ∈ st'.subjectIdx s) ∧
      (∀ r ∈ pC2new.resources, (pC2new.id, Payload.good pC2new) ∈ st'.resourceIdx r) ∧
      (∀ lit, lit ∉ pC2new.subjects →
        st'.subjectIdx lit = (runCreate Store.empty pC2old).subjectIdx lit) ∧
      (∀ lit, lit ∉ pC2new.resources →
        st'.resourceIdx lit = (runCreate Store.empty pC2old).resourceIdx lit) :=
  update_adds_new_literals_never_removes (runCreate Store.empty pC2old) pC2new (by rfl)

/-- Claim C3 counterexample: one policy declaring subject "s" and
resource "r"; the candidate query for ("s","r") returns the policy
twice — once from the resource entry and once from the subject entry —
so the result is not deduplicated by identifier. -/
theorem findRequestCandidates_duplicates :
    FindRequestCandidates (runCreate Store.empty pC3) "s" "r" = Except.ok [pC3, pC3] := rfl

/-- Claim C3 (amended): `FindRequestCandidates` decodes and concatenates
the payloads stored inline in the resource index entry for `r` and then
those in the subject index entry for `s`; it performs no deduplication
(a policy present in both entries occurs in both halves of the result)
and never consults the primary store — the result is unchanged when the
whole primary keyspace is emptied, so no record is fetched and there is
no `NotFound`-tombstone skip. -/
theorem findRequestCandidates_concat_inline (st : Store) (s r : String) (p : Policy)
    (hgr : goodHash (st.resourceIdx r)) (hgs : goodHash (st.subjectIdx s))
    (hr : (p.id, Payload.good p) ∈ st.resourceIdx r)
    (hs : (p.id, Payload.good p) ∈ st.subjectIdx s) :
    ∃ rl sl, FindRequestCandidates st s r = Except.ok (rl ++ sl) ∧ p ∈ rl ∧ p ∈ sl ∧
      FindRequestCandidates { st with primary := [] } s r
        = FindRequestCandidates st s r := by
  obtain ⟨rl, hrl⟩ := decodeValues_isOk _ (goodHash_map_snd hgr)
  obtain ⟨sl, hsl⟩ := decodeValues_isOk _ (goodHash_map_snd hgs)
  refine ⟨rl, sl, ?_, ?_, ?_, rfl⟩
  · simp [FindRequestCandidates, hrl, hsl]
  · exact mem_decodeValues hrl (List.mem_map.mpr ⟨_, hr, rfl⟩)
  · exact mem_decodeValues hsl (List.mem_map.mpr ⟨_, hs, rfl⟩)

/-- Witness for the amended C3. -/
theorem findRequestCandidates_concat_inline_witness :
    ∃ rl sl,
      FindRequestCandidates (runCreate Store.empty pC3) "s" "r" = Except.ok (rl ++ sl) ∧
      pC3 ∈ rl ∧ pC3 ∈ sl ∧
      FindRequestCandidates { runCreate Store.empty pC3 with primary := [] } "s" "r"
        = FindRequestCandidates (runCreate Store.empty pC3) "s" "r" :=
  findRequestCandidates_concat_inline (runCreate Store.empty pC3) "s" "r" pC3
    (goodIdx_resource_createAll [pC3] Store.empty goodIdx_empty "r")
    (goodIdx_subject_createAll [pC3] Store.empty goodIdx_empty "s")
    (by decide) (by decide)

/-- Claim C4 counterexample: two `Create` calls for the same id, each
split into its two backing-store commands (the GET existence check at
line 53 and the SET at line 63), interleaved check-check-write-write
from an empty store: both checks see the key absent, so both calls
succeed — not "exactly one succeeds with the other N−1 observing
AlreadyExists" — and the second write wins the primary record. -/
theorem concurrent_creates_both_succeed :
    pC4a.id = pC4b.id ∧
    (interleavedCreates pC4a pC4b).1 = Except.ok () ∧
    (interleavedCreates pC4a pC4b).2.1 = Except.ok () ∧
    alookup pC4a.id (interleavedCreates pC4a pC4b).2.2.primary
      = some (Payload.good pC4b) :=
  ⟨rfl, rfl, rfl, rfl⟩

/-- Claim C4 (amended): sequentially, `Create` on a present id fails
with `ErrPolicyExists` before any write (the failing call leaves the
store untouched), and on an absent id it succeeds; but the existence
check is a separate GET followed by a SET, not an atomic set-if-absent,
so two concurrent `Create` calls with the same id whose checks both run
before either write both succeed. (The alternative manager variant in
the sources, which keeps all policies in a single hash, does use the
atomic HSetNX for this check.) -/
theorem create_check_is_separate_read (st : Store) (p q : Policy) :
    ((alookup p.id st.primary).isSome = true →
      Create st p = Except.error Err.policyExists ∧ runCreate st p = st) ∧
    ((alookup p.id st.primary).isNone = true →
      Create st p = Except.ok (writePhase st p)) ∧
    ((interleavedCreates p q).1 = Except.ok () ∧
      (interleavedCreates p q).2.1 = Except.ok ()) := by
  refine ⟨?_, ?_, rfl, rfl⟩
  · intro h
    have hne : (alookup p.id st.primary).isNone = false := by
      cases hl : alookup p.id st.primary
      · rw [hl] at h; simp at h
      · simp
    constructor <;> simp [Create, runCreate, createCheck, hne]
  · intro h
    simp [Create, createCheck, h]

/-- Witness for the amended C4. -/
theorem create_check_is_separate_read_witness :
    (Create (runCreate Store.empty pC4a) pC4b = Except.error Err.policyExists ∧
      runCreate (runCreate Store.empty pC4a) pC4b = runCreate Store.empty pC4a) ∧
    Create Store.empty pC4a = Except.ok (writePhase Store.empty pC4a) ∧
    ((interleavedCreates pC4a pC4b).1 = Except.ok () ∧
      (interleavedCreates pC4a pC4b).2.1 = Except.ok ()) :=
  ⟨(create_check_is_separate_read (runCreate Store.empty pC4a) pC4b pC4b).1 (by rfl),
   (create_check_is_separate_read Store.empty pC4a pC4b).2.1 (by rfl),
   (create_check_is_separate_read Store.empty pC4a pC4b).2.2⟩

/-- Claim C5 counterexample: when the backing GET fails transport-level
(the `unavailable` reply), `Get` returns `ErrNotFound` — the error is
coerced to not-found, not surfaced verbatim, because lines 142-144 map
every non-nil `cmd.Err()` to `ErrNotFound`. -/
theorem get_coerces_unavailable :
    getCore Reply.unavailable = Except.error Err.notFound := rfl

/-- Claim C5 (amended): every failing backing GET — the nil reply for an
absent key and a transport-level failure alike — is reported by `Get`
as `ErrNotFound`; a payload that is present but fails to decode is
reported as the distinct `ErrBadConversion` (the spec's `Corrupt`),
never treated as absent; a present well-formed payload decodes to its
policy. -/
theorem get_error_taxonomy :
    getCore Reply.unavailable = Except.error Err.notFound ∧
    getCore Reply.nilReply = Except.error Err.notFound ∧
    getCore (Reply.found Payload.corrupt) = Except.error Err.badConversion ∧
    ∀ p, getCore (Reply.found (Payload.good p)) = Except.ok p :=
  ⟨rfl, rfl, rfl, fun _ => rfl⟩

/-- Claim C6: after creating a list of policies with pairwise distinct
identifiers from a fresh store, the indexed candidate query returns
every created policy whose declared subjects include the request
subject or whose declared resources include the request resource — no
false negatives relative to a full scan of what was created. -/
theorem findRequestCandidates_no_false_negatives (ps : List Policy) (p : Policy)
    (s r : String) (hd : ps.Pairwise fun a b => a.id ≠ b.id) (hp : p ∈ ps)
    (happ : s ∈ p.subjects ∨ r ∈ p.resources) :
    ∃ l, FindRequestCandidates (createAll Store.empty ps) s r = Except.ok l ∧ p ∈ l := by
  have hgs := goodIdx_subject_createAll ps Store.empty goodIdx_empty
  have hgr := goodIdx_resource_createAll ps Store.empty goodIdx_empty
  obtain ⟨rl, hrl⟩ := decodeValues_isOk _ (goodHash_map_snd (hgr r))
  obtain ⟨sl, hsl⟩ := decodeValues_isOk _ (goodHash_map_snd (hgs s))
  refine ⟨rl ++ sl, ?_, ?_⟩
  · simp [FindRequestCandidates, hrl, hsl]
  · rcases happ with hs | hr
    · have hm := mem_subjectIdx_createAll ps Store.empty p s hp hd (fun q _ => rfl) hs
      exact List.mem_append.mpr (Or.inr (mem_decodeValues hsl (List.mem_map.mpr ⟨_, hm, rfl⟩)))
    · have hm := mem_resourceIdx_createAll ps Store.empty p r hp hd (fun q _ => rfl) hr
      exact List.mem_append.mpr (Or.inl (mem_decodeValues hrl (List.mem_map.mpr ⟨_, hm, rfl⟩)))

def pC6a : Policy := { id := "c6a", subjects := ["su1", "su2"], resources := ["re1"] }

def pC6b : Policy := { id := "c6b", subjects := ["su1"], resources := ["re2"] }

/-- Witness for C6: two policies overlapping on subject "su1"; the query
for ("su1", "re2") must return both — one via its subject literal, one
via its resource literal. -/
theorem findRequestCandidates_no_false_negatives_witness :
    (∃ l, FindRequestCandidates (createAll Store.empty [pC6a, pC6b]) "su1" "re2"
        = Except.ok l ∧ pC6a ∈ l) ∧
    (∃ l, FindRequestCandidates (createAll Store.empty [pC6a, pC6b]) "su1" "re2"
        = Except.ok l ∧ pC6b ∈ l) :=
  ⟨findRequestCandidates_no_false_negatives [pC6a, pC6b] pC6a "su1" "re2"
      (by decide) (by decide) (Or.inl (by decide)),
   findRequestCandidates_no_false_negatives [pC6a, pC6b] pC6b "su1" "re2"
      (by decide) (by decide) (Or.inr (by decide))⟩

/-- Claim C7: on a store not holding the policy's id, `Create` succeeds
and the following `Get` of that id returns a policy equal to the one
created; the serialize-then-deserialize round trip through the record
codec is the identity. -/
theorem create_then_get_roundtrip (st : Store) (p : Policy)
    (h : alookup p.id st.primary = none) :
    decodePolicy (encodePolicy p) = Except.ok p ∧
    ∃ st', Create st p = Except.ok st' ∧ Get st' p.id = Except.ok p := by
  refine ⟨rfl, writePhase st p, ?_, ?_⟩
  · simp [Create, createCheck, h]
  · have hl : alookup p.id (writePhase st p).primary = some (Payload.good p) := by
      simp [writePhase, alookup_hset, encodePolicy]
    simp [Get, dbGet, hl, getCore, decodePolicy]

def pC7 : Policy := { id := "c7", subjects := ["1", "2"] }

/-- Witness for C7. -/
theorem create_then_get_roundtrip_witness :
    decodePolicy (encodePolicy pC7) = Except.ok pC7 ∧
    ∃ st', Create Store.empty pC7 = Except.ok st' ∧ Get st' pC7.id = Except.ok pC7 :=
  create_then_get_roundtrip Store.empty pC7 rfl

/-- Claim C8: `Delete` fails with `ErrNotFound` when the id is absent
(so a second `Delete` of a deleted id fails with `ErrNotFound`, as does
`Get` after a successful `Delete`); on success it decodes the existing
record to discover its literals, removes the primary record, and
removes the policy id from the index entry of every subject and
resource literal the deleted record declared. -/
theorem delete_removes_record_and_index_entries (st : Store) (id : String) :
    (alookup id st.primary = none → Delete st id = Except.error Err.notFound) ∧
    ∀ p, alookup id st.primary = some (Payload.good p) →
      ∃ st', Delete st id = Except.ok st' ∧
        alookup id st'.primary = none ∧
        Get st' id = Except.error Err.notFound ∧
        Delete st' id = Except.error Err.notFound ∧
        (∀ s ∈ p.subjects, alookup p.id (st'.subjectIdx s) = none) ∧
        (∀ r ∈ p.resources, alookup p.id (st'.resourceIdx r) = none) := by
  constructor
  · intro h; simp [Delete, h]
  · intro p h
    refine ⟨{ primary := hdel id st.primary,
              resourceIdx := delIdx st.resourceIdx p.resources p.id,
              subjectIdx := delIdx st.subjectIdx p.subjects p.id }, ?_, ?_, ?_, ?_, ?_, ?_⟩
    · simp [Delete, h, decodePolicy]
    · exact alookup_hdel_self id st.primary
    · simp [Get, dbGet, alookup_hdel_self, getCore]
    · simp [Delete, alookup_hdel_self]
    · intro s hs; exact alookup_delIdx _ _ _ _ (Or.inr hs)
    · intro r hr; exact alookup_delIdx _ _ _ _ (Or.inr hr)

def pC8 : Policy := { id := "c8", subjects := ["1", "2"], resources := ["rs"] }

/-- Witness for C8: delete on an empty store is not-found; deleting a
created policy removes its record and its index memberships. -/
theorem delete_removes_record_and_index_entries_witness :
    Delete Store.empty "c8" = Except.error Err.notFound ∧
    ∃ st', Delete (runCreate Store.empty pC8) "c8" = Except.ok st' ∧
      alookup "c8" st'.primary = none ∧
      Get st' "c8" = Except.error Err.notFound ∧
      Delete st' "c8" = Except.error Err.notFound ∧
      (∀ s ∈ pC8.subjects, alookup pC8.id (st'.subjectIdx s) = none) ∧
      (∀ r ∈ pC8.resources, alookup pC8.id (st'.resourceIdx r) = none) :=
  ⟨(delete_removes_record_and_index_entries Store.empty "c8").1 rfl,
   (delete_removes_record_and_index_entries (runCreate Store.empty pC8) "c8").2 pC8 rfl⟩

def pD1 : Policy := { id := "d1" }

def pD2 : Policy := { id := "d2" }

def pD3 : Policy := { id := "d3" }

def pD4 : Policy := { id := "d4" }

def stC10 : Store := createAll Store.empty [pD1, pD2, pD3, pD4]

/-- Claim C9 counterexample: at offset 1 and limit 2^63−1 (both valid
`int64` values) the mathematical sum 2^63 exceeds the stored count of
four, so the claim promises the entire collection; but the `int64`
guard at line 126 computes the wrapped sum −2^63, skips the clamp, and
the slice `policies[1:2^63−1]` panics instead. -/
theorem getAll_overflow_skips_clamp :
    (1 : Int) + 9223372036854775807 > (([pD1, pD2, pD3, pD4] : List Policy).length : Int) ∧
    GetAll stC10 9223372036854775807 1 = Outcome.goPanic :=
  ⟨by decide, by decide⟩

/-- Claim C9 (amended): when the `int64` sum of offset and limit does
not overflow and exceeds the number of stored records, `GetAll`
reassigns limit to the count and offset to zero (lines 126-129) and so
returns the entire decoded collection, neither erroring nor returning
empty; when the sum overflows, the guard compares the wrapped value
instead and the call can panic. -/
theorem getAll_clamps_to_full_collection (st : Store) (ps : List Policy)
    (limit offset : Int) (hdec : decodeValues (st.primary.map Prod.snd) = Except.ok ps)
    (hlo : -9223372036854775808 ≤ offset + limit)
    (hhi : offset + limit < 9223372036854775808)
    (hover : offset + limit > (ps.length : Int)) :
    GetAll st limit offset = Outcome.ok ps := by
  simp only [GetAll, hdec]
  rw [wrap64_eq_self hlo hhi, if_pos hover]
  unfold goSlice
  rw [if_pos ⟨le_refl 0, Int.natCast_nonneg _, le_refl _⟩]
  simp

/-- Witness for the amended C9: four stored policies, limit 10 and
offset 2 return all four. -/
theorem getAll_clamps_to_full_collection_witness :
    GetAll stC10 10 2 = Outcome.ok [pD1, pD2, pD3, pD4] :=
  getAll_clamps_to_full_collection stC10 [pD1, pD2, pD3, pD4] 10 2 rfl
    (by decide) (by decide) (by decide)

/-- Claim C10: line 131 slices `policies[offset:limit]` rather than
`policies[offset:offset+limit]`; within bounds (offset+limit not above
the stored count), a call with 0 ≤ limit < offset panics on inverted
slice bounds instead of returning a page, and a call with
0 ≤ offset ≤ limit returns the records at positions offset..limit
rather than a page of `limit` records starting at offset. -/
theorem getAll_slices_offset_limit (st : Store) (ps : List Policy)
    (limit offset : Int) (hdec : decodeValues (st.primary.map Prod.snd) = Except.ok ps)
    (hin : offset + limit ≤ (ps.length : Int)) :
    (0 ≤ limit → limit < offset → GetAll st limit offset = Outcome.goPanic) ∧
    (0 ≤ offset → offset ≤ limit →
      GetAll st limit offset
        = Outcome.ok ((ps.drop offset.toNat).take (limit - offset).toNat)) := by
  constructor
  · intro h0 hlt
    have hnot : ¬ wrap64 (offset + limit) > (ps.length : Int) :=
      not_lt.mpr (wrap64_le_of_nonneg (by omega) hin)
    simp only [GetAll, hdec]
    rw [if_neg hnot]
    unfold goSlice
    rw [if_neg fun hc => absurd hc.2.1 (not_le.mpr hlt)]
  · intro h0 hle
    have hnot : ¬ wrap64 (offset + limit) > (ps.length : Int) :=
      not_lt.mpr (wrap64_le_of_nonneg (by omega) hin)
    have hhi : limit ≤ (ps.length : Int) := by omega
    simp only [GetAll, hdec]
    rw [if_neg hnot]
    unfold goSlice
    rw [if_pos ⟨h0, hle, hhi⟩]

/-- Witness for C10: with four stored policies, limit 1 and offset 3
panic (inverted bounds), while limit 2 and offset 1 return the single
record at position 1, not two records starting there. -/
theorem getAll_slices_offset_limit_witness :
    GetAll stC10 1 3 = Outcome.goPanic ∧
    GetAll stC10 2 1
      = Outcome.ok ((([pD1, pD2, pD3, pD4].drop (1 : Int).toNat)).take ((2 - 1 : Int)).toNat) :=
  ⟨(getAll_slices_offset_limit stC10 [pD1, pD2, pD3, pD4] 1 3 rfl (by decide)).1
      (by decide) (by decide),
   (getAll_slices_offset_limit stC10 [pD1, pD2, pD3, pD4] 2 1 rfl (by decide)).2
      (by decide) (by decide)⟩

end LadonRedis
